import Mathlib

/-!
Live-reload engine: paths, change classifier, watcher registration, process supervision

A shallow embedding of `runner/engine.go`, `runner/util.go` and
`runner/util_unix.go`.

Go strings are modelled as lists of characters.  The path functions only look
for the ASCII characters `/` and `.`, so scanning characters agrees with the
byte scanning of the Go library on every valid UTF-8 string.
-/

namespace Air

/-! ## Paths (`path/filepath`, Unix) -/

/-- A Go string. -/
abbrev Path := List Char

/-- The predicate `os.IsPathSeparator` on Unix. -/
def isPathSeparator (c : Char) : Bool := c == '/'

/-- Backward scan of `filepath.Ext`: `rev` holds the bytes still to visit, last
byte first, and `acc` the bytes already visited, in path order. -/
def extScan : List Char → List Char → Path
  | [], _ => []
  | c :: rev, acc =>
    if isPathSeparator c then []
    else if c == '.' then c :: acc
    else extScan rev (c :: acc)

/-- The function `filepath.Ext`: the suffix starting at the last dot of the last
path element, empty when that element has no dot. -/
def Ext (path : Path) : Path := extScan path.reverse []

/-- The function `filepath.Base` on Unix: the last element of the path, after
removing trailing separators. -/
def Base (path : Path) : Path :=
  if path = [] then ['.']
  else
    let stripped := path.reverse.dropWhile isPathSeparator
    let last := (stripped.takeWhile (fun c => !isPathSeparator c)).reverse
    if last = [] then ['/'] else last

/-- Splits a path at every separator; empty elements are kept. -/
def splitSep : List Char → List (List Char)
  | [] => [[]]
  | c :: cs =>
    if isPathSeparator c then [] :: splitSep cs
    else
      match splitSep cs with
      | [] => [[c]]
      | e :: es => (c :: e) :: es

/-- One round of the main loop of `filepath.Clean`, on a whole path element.
The output elements are kept last element first.  Empty and `.` elements are
dropped; `..` removes the last real element, is dropped at the root and is kept
otherwise. -/
def cleanStep (rooted : Bool) (out : List (List Char)) (elem : List Char) : List (List Char) :=
  if elem = [] then out
  else if elem = ['.'] then out
  else if elem = ['.', '.'] then
    match out with
    | [] => if rooted then [] else [elem]
    | top :: below => if top = ['.', '.'] then elem :: out else below
  else elem :: out

/-- Joins path elements with the separator. -/
def joinSep : List (List Char) → List Char
  | [] => []
  | [e] => e
  | e :: es => e ++ '/' :: joinSep es

/-- The function `filepath.Clean` on Unix: the shortest path equivalent to
`path` by purely lexical processing. -/
def Clean (path : Path) : Path :=
  if path = [] then ['.']
  else
    let rooted := path.head?.any isPathSeparator
    let out := ((splitSep path).foldl (cleanStep rooted) []).reverse
    if rooted then '/' :: joinSep out
    else if out = [] then ['.'] else joinSep out

/-- The function `filepath.Join` applied to a directory and an entry name. -/
def Join (dir name : Path) : Path := Clean (dir ++ '/' :: name)

/-- The function `strings.HasPrefix`. -/
def HasPrefix (s pre : Path) : Bool := pre.isPrefixOf s

/-! ## Change classifier (`engine.go`) -/

/-- The type `fsnotify.Op`: a bit mask of operations. -/
abbrev Op := Nat

/-- The constant `fsnotify.Create`. -/
def Op.Create : Op := 1
/-- The constant `fsnotify.Write`. -/
def Op.Write : Op := 2
/-- The constant `fsnotify.Remove`. -/
def Op.Remove : Op := 4
/-- The constant `fsnotify.Rename`. -/
def Op.Rename : Op := 8
/-- The constant `fsnotify.Chmod`. -/
def Op.Chmod : Op := 16

/-- The method `fsnotify.Op.Has`: the operation set `o` includes `h`. -/
def Op.Has (o h : Op) : Bool := o &&& h == h

/-- The type `fsnotify.Event`. -/
structure Event where
  Name : Path
  Op : Op
  deriving DecidableEq, Repr

/-- The built-in exclusion list of `Engine.isExcluded`. -/
def excludeDirs : List Path :=
  [".git".toList, "node_modules".toList, "vendor".toList, "_air".toList, "tmp".toList]

/-- The method `Engine.isExcluded`: the base name of `path` is in the built-in
exclusion list. -/
def isExcluded (path : Path) : Bool :=
  excludeDirs.any (fun dir => Base path == dir)

/-- The method `Engine.isValidChange`. -/
def isValidChange (event : Event) : Bool :=
  if (event.Op &&& Op.Write != Op.Write) && (event.Op &&& Op.Create != Op.Create) then
    false
  else
    Ext event.Name == ".go".toList

/-! ## Include-list policy (`util.go`) -/

/-- The method `Engine.checkIncludeDir`, with `includeDir` standing for
`e.config.Build.IncludeDir`.  The loop over the entries returns at the first
entry that is equal to, or a prefix of, the cleaned path. -/
def checkIncludeLoop (cleanPath : Path) : List Path → Bool × Bool
  | [] => (false, false)
  | d :: ds =>
    if cleanPath = d then (true, true)
    else if HasPrefix cleanPath d then (false, true)
    else checkIncludeLoop cleanPath ds

/-- The method `Engine.checkIncludeDir`. -/
def checkIncludeDir (includeDir : List Path) (path : Path) : Bool × Bool :=
  let cleanPath := Clean path
  if includeDir.length = 0 then (true, true)
  else checkIncludeLoop cleanPath includeDir

/-! ## Watcher registration (`engine.go`, `filepath.Walk`) -/

mutual
/-- A file-system node: a regular file, or a directory with its entries in the
order `filepath.Walk` visits them (sorted by name). -/
inductive Node where
  | file : Node
  | dir : Entries → Node
/-- The entries of a directory. -/
inductive Entries where
  | nil : Entries
  | cons : Path → Node → Entries → Entries
end

/-- The method `os.FileInfo.IsDir`. -/
def Node.IsDir : Node → Bool
  | .file => false
  | .dir _ => true

/-- Looks an entry up by name. -/
def Entries.find : Entries → Path → Option Node
  | .nil, _ => none
  | .cons name node rest, n => if name = n then some node else rest.find n

/-- The call `os.Stat(dir)` for one of the relative names of `dirsToWatch`, in a
working directory `cwd`: `.` is the working directory itself, any other name is
an entry of it. -/
def stat (cwd : Node) (dir : Path) : Option Node :=
  if dir = ['.'] then some cwd
  else
    match cwd with
    | .file => none
    | .dir entries => entries.find dir

/-- A non-nil Go `error`, as an error number. -/
abbrev Error := Nat

/-- The non-nil results of a `filepath.WalkFunc`. -/
inductive WalkError where
  | SkipDir : WalkError
  | SkipAll : WalkError
  | other : Error → WalkError
  deriving DecidableEq, Repr

mutual
/-- The function `walk` of `path/filepath` on a tree that is read without
error, with the state `σ` of the walk function threaded through: the walk
function is called on the node; for a directory on which it returned `nil`, the
entries are walked in order. -/
def walk {σ : Type} (walkFn : σ → Path → Node → Option WalkError × σ) (st : σ) (path : Path) :
    Node → Option WalkError × σ
  | .file => walkFn st path .file
  | .dir entries =>
    match walkFn st path (.dir entries) with
    | (some err1, st) => (some err1, st)
    | (none, st) => walkNames walkFn st path entries
/-- The loop of `walk` over the names of a directory: `SkipDir` returned for a
directory entry skips that entry only, any other error ends the walk. -/
def walkNames {σ : Type} (walkFn : σ → Path → Node → Option WalkError × σ) (st : σ) (path : Path) :
    Entries → Option WalkError × σ
  | .nil => (none, st)
  | .cons name fileInfo rest =>
    match walk walkFn st (Join path name) fileInfo with
    | (some err, st) =>
      if !fileInfo.IsDir || err != WalkError.SkipDir then (some err, st)
      else walkNames walkFn st path rest
    | (none, st) => walkNames walkFn st path rest
end

/-- The function `filepath.Walk` on a root that exists. -/
def Walk {σ : Type} (walkFn : σ → Path → Node → Option WalkError × σ) (st : σ) (root : Path)
    (info : Node) : Option WalkError × σ :=
  match walk walkFn st root info with
  | (some .SkipDir, st) => (none, st)
  | (some .SkipAll, st) => (none, st)
  | r => r

/-- The method `fsnotify.Watcher.Add` on the list of registered paths; `addErr`
tells for which paths the registration fails. -/
def watcherAdd (addErr : Path → Option Error) (watched : List Path) (path : Path) :
    Option WalkError × List Path :=
  match addErr path with
  | some err => (some (.other err), watched)
  | none => (none, watched ++ [path])

/-- The walk function of `Engine.setupWatcher`, on a path read without error: a
directory that is not excluded is added to the watcher; in every other case the
function returns `nil`. -/
def watchFn (addErr : Path → Option Error) (watched : List Path) (path : Path) (info : Node) :
    Option WalkError × List Path :=
  if info.IsDir && !isExcluded path then watcherAdd addErr watched path
  else (none, watched)

/-- The list `dirsToWatch` of `Engine.setupWatcher`. -/
def dirsToWatch : List Path :=
  [".".toList, "app".toList, "cmd".toList, "internal".toList, "pkg".toList, "src".toList]

/-- The loop of `Engine.setupWatcher` over `dirsToWatch`. -/
def setupWatcherLoop (addErr : Path → Option Error) (cwd : Node) (watched : List Path) :
    List Path → Option WalkError × List Path
  | [] => (none, watched)
  | dir :: dirs =>
    match stat cwd dir with
    | some info =>
      match Walk (watchFn addErr) watched dir info with
      | (some err, watched) => (some err, watched)
      | (none, watched) => setupWatcherLoop addErr cwd watched dirs
    | none => setupWatcherLoop addErr cwd watched dirs

/-- The method `Engine.setupWatcher` in a working directory `cwd`: the error
returned and the paths registered with the watcher, in order of registration. -/
def setupWatcher (addErr : Path → Option Error) (cwd : Node) : Option WalkError × List Path :=
  setupWatcherLoop addErr cwd [] dirsToWatch

/-- A working directory holding `main.go`, `src/`, `src/vendor/` and
`src/vendor/x/`. -/
def vendorTree : Node :=
  .dir (.cons "main.go".toList .file
       (.cons "src".toList
          (.dir (.cons "app.go".toList .file
                (.cons "vendor".toList
                   (.dir (.cons "lib.go".toList .file
                         (.cons "x".toList (.dir (.cons "x.go".toList .file .nil)) .nil)))
                   .nil)))
          .nil))

/-! ## Process supervision (`engine.go`, `util_unix.go`) -/

/-- The signals sent by the engine. -/
inductive Signal where
  | SIGINT : Signal
  | SIGKILL : Signal
  deriving DecidableEq, Repr

/-- The type `os.Process`, reduced to its process id. -/
structure Process where
  Pid : Int
  deriving DecidableEq, Repr

/-- The type `exec.Cmd`: the field `Process` is nil until `Start` succeeds. -/
structure Cmd where
  Process : Option Process
  deriving DecidableEq, Repr

/-- Modelled from the spec: the section `Build` of the type `Config`, declared
outside the files at hand; the fields read by the engine are the output binary
path, the include list and the flag asking for an interrupt before the kill. -/
structure BuildConfig where
  Bin : String
  IncludeDir : List Path
  SendInterrupt : Bool
  deriving DecidableEq, Repr

/-- Modelled from the spec: the type `Config`, declared outside the files at
hand.  The field `killDelay` is the value of the method `Config.killDelay`, the
configured kill-escalation delay, in nanoseconds. -/
structure Config where
  Build : BuildConfig
  killDelay : Nat
  deriving DecidableEq, Repr

/-- The fields of the type `Engine` that the supervision code reads or writes;
`exitChClosed` tells whether the channel `exitCh` has been closed. -/
structure Engine where
  config : Config
  debugMode : Bool
  currentCmd : Option Cmd
  running : Bool
  exitChClosed : Bool
  deriving DecidableEq, Repr

/-- The result of `cmd.Start()`: the pid of the new child, or an error. -/
inductive StartResult where
  | ok : Int → StartResult
  | error : Error → StartResult
  deriving DecidableEq, Repr

/-- The effects of the supervision code on its environment. -/
inductive Effect where
  /-- A line written by `mainLog`, as format string and arguments. -/
  | log : String → List Int → Effect
  /-- The call `e.mu.Lock()`. -/
  | lock : Effect
  /-- The call `e.mu.Unlock()`. -/
  | unlock : Effect
  /-- The call `syscall.Kill(pid, sig)` and its result. -/
  | kill : Int → Signal → Option Error → Effect
  /-- The call `time.Sleep(d)`, in nanoseconds. -/
  | sleep : Nat → Effect
  /-- A blocking wait that reaps the child with this pid. -/
  | wait : Int → Effect
  /-- The run of a command to completion, as argument vector and result. -/
  | run : List String → Option Error → Effect
  /-- The call `cmd.Start()` on a binary in a new process group, and its result. -/
  | start : String → StartResult → Effect
  /-- The launch of the goroutine that waits for the started child. -/
  | goWait : Int → Effect
  /-- The call `close(e.exitCh)`. -/
  | closeExitCh : Effect
  deriving DecidableEq, Repr

/-- One step of an execution trace: an effect, with the stored handle and the
children started and not yet reaped at the moment the effect is issued.  An
assignment to `currentCmd` is no effect of its own: it shows in the steps that
follow it. -/
structure Step where
  effect : Effect
  currentCmd : Option Cmd
  live : List Int
  deriving DecidableEq, Repr

/-- The answers of the operating system.  Each is indexed by the number of
system calls the engine has made before, so that every call may succeed or
fail independently of the others. -/
structure Env where
  /-- The result of `syscall.Kill`. -/
  kill : Nat → Option Error
  /-- The result of running the build command. -/
  build : Nat → Option Error
  /-- The result of `cmd.Start()`: the pid of the new child, or an error. -/
  start : Nat → StartResult

/-- The engine together with its environment: the children started and not yet
reaped, the number of system calls made, and the trace so far. -/
structure State where
  e : Engine
  live : List Int
  calls : Nat
  trace : List Step
  deriving DecidableEq, Repr

/-- Records an effect, with the state in which it is issued. -/
def emit (ef : Effect) (s : State) : State :=
  { s with trace := s.trace ++ [⟨ef, s.e.currentCmd, s.live⟩] }

/-- The method `Engine.mainLog`. -/
def mainLog (format : String) (args : List Int) (s : State) : State :=
  emit (.log format args) s

/-- The method `Engine.mainDebug`. -/
def mainDebug (format : String) (args : List Int) (s : State) : State :=
  if !s.e.debugMode then s else mainLog format args s

/-- The call `syscall.Kill(pid, sig)`.  A signalled child stays in `live` until
it is reaped. -/
def sysKill (env : Env) (pid : Int) (sig : Signal) (s : State) : Option Error × State :=
  let err := env.kill s.calls
  (err, { emit (.kill pid sig err) s with calls := s.calls + 1 })

/-- The call `time.Sleep(d)`. -/
def sleep (d : Nat) (s : State) : State := emit (.sleep d) s

/-- The calls `cmd.Wait()` and `cmd.Process.Wait()` on a started command: the
child is reaped once it has exited.  The wait is taken to return, as it does
for a child that was killed or that has exited already. -/
def processWait (p : Process) (s : State) : State :=
  { emit (.wait p.Pid) s with live := s.live.erase p.Pid }

/-- The duration `100 * time.Millisecond`, in nanoseconds. -/
def hundredMilliseconds : Nat := 100 * 1000000

/-- The method `Engine.killCurrentProcess`. -/
def killCurrentProcess (env : Env) (s : State) : State :=
  let s := emit .lock s
  let s :=
    match s.e.currentCmd with
    | none => s
    | some cmd =>
      match cmd.Process with
      | none => s
      | some p =>
        let s := mainLog "Killing process %d" [p.Pid] s
        let (err, s) := sysKill env (-p.Pid) .SIGINT s
        let s := if err = none then sleep hundredMilliseconds s else s
        let (err, s) := sysKill env (-p.Pid) .SIGKILL s
        let s := if err ≠ none then (sysKill env p.Pid .SIGKILL s).2 else s
        let s := processWait p s
        { s with e := { s.e with currentCmd := none } }
  emit .unlock s

/-- The call `buildCmd.Run()` of `Engine.rebuild`, on the command
`go build -o Bin`. -/
def runBuild (env : Env) (s : State) : Option Error × State :=
  let err := env.build s.calls
  (err, { emit (.run ["go", "build", "-o", s.e.config.Build.Bin] err) s with calls := s.calls + 1 })

/-- The call `cmd.Start()` of `Engine.rebuild`: on success the child is live and
the command carries its process. -/
def cmdStart (env : Env) (s : State) : Except Error Cmd × State :=
  match env.start s.calls with
  | .error err =>
    (.error err, { emit (.start s.e.config.Build.Bin (.error err)) s with calls := s.calls + 1 })
  | .ok pid =>
    (.ok ⟨some ⟨pid⟩⟩,
      { emit (.start s.e.config.Build.Bin (.ok pid)) s with
        calls := s.calls + 1, live := s.live ++ [pid] })

/-- The launch of the goroutine that calls `cmd.Wait()` at the end of
`Engine.rebuild`. -/
def goWait (cmd : Cmd) (s : State) : State :=
  match cmd.Process with
  | some p => emit (.goWait p.Pid) s
  | none => s

/-- The method `Engine.rebuild`. -/
def rebuild (env : Env) (s : State) : State :=
  let s := killCurrentProcess env s
  let s := mainLog "Building..." [] s
  let (err, s) := runBuild env s
  match err with
  | some err => mainLog "Build failed: %v" [err] s
  | none =>
    let s := mainLog "Running..." [] s
    let s := emit .lock s
    let (r, s) := cmdStart env s
    match r with
    | .error err =>
      let s := mainLog "Failed to start process: %v" [err] s
      emit .unlock s
    | .ok cmd =>
      let s := { s with e := { s.e with currentCmd := some cmd } }
      let s := emit .unlock s
      goWait cmd s

/-- The method `Engine.TriggerRefresh`. -/
def TriggerRefresh (env : Env) (s : State) : State := rebuild env s

/-- A run-time panic of the Go program. -/
inductive Panic where
  | closeOfClosedChannel : Panic
  | nilPointerDereference : Panic
  deriving DecidableEq, Repr

/-- The method `Engine.Stop`.  Closing a channel that is already closed is a
run-time panic. -/
def Stop (env : Env) (s : State) : Except Panic State :=
  let s := killCurrentProcess env s
  if s.e.exitChClosed then .error .closeOfClosedChannel
  else
    let s := emit .closeExitCh s
    let s := { s with e := { s.e with exitChClosed := true } }
    .ok { s with e := { s.e with running := false } }

/-- Lines 28 to 39 of `Engine.killCmd`: the forceful kill of the group, the
direct kill when that fails, and the wait. -/
def killCmdForce (env : Env) (p : Process) (s : State) : (Int × Option Error) × State :=
  let pid := p.Pid
  let s := mainDebug "sending kill signal to pid %d" [pid] s
  let (err, s) := sysKill env (-pid) .SIGKILL s
  let (err, s) := if err ≠ none then sysKill env pid .SIGKILL s else (err, s)
  let s := mainDebug "waiting for process to exit" [] s
  let s := processWait p s
  ((pid, err), s)

/-- The method `Engine.killCmd` (`util_unix.go`): the pid and the error
returned, and the state reached.  Reading `cmd.Process.Pid` of a command that
was not started is a nil pointer dereference. -/
def killCmd (env : Env) (cmd : Cmd) (s : State) : Except Panic ((Int × Option Error) × State) :=
  match cmd.Process with
  | none => .error .nilPointerDereference
  | some p =>
    let pid := p.Pid
    if s.e.config.Build.SendInterrupt then
      let s := mainDebug "sending interrupt signal to pid %d" [pid] s
      let (err, s) := sysKill env (-pid) .SIGINT s
      if err ≠ none then
        let (err, s) := sysKill env pid .SIGINT s
        if err ≠ none then .ok ((pid, err), s)
        else .ok (killCmdForce env p (sleep s.e.config.killDelay s))
      else .ok (killCmdForce env p (sleep s.e.config.killDelay s))
    else .ok (killCmdForce env p s)

/-- The engine built by `NewEngine`, before any child is started. -/
def newEngine (config : Config) (debugMode : Bool) : State :=
  { e := { config := config, debugMode := debugMode, currentCmd := none, running := false,
           exitChClosed := false },
    live := [], calls := 0, trace := [] }

/-- The calls of a sequential execution: a rebuild, a stop of the current
child, and the goroutine launched by `rebuild` reaping a child that exited. -/
inductive Call where
  | rebuild : Call
  | killCurrentProcess : Call
  | waiterReaps : Int → Call
  deriving DecidableEq, Repr

/-- Executes one call. -/
def Call.exec (env : Env) : Call → State → State
  | .rebuild, s => Air.rebuild env s
  | .killCurrentProcess, s => Air.killCurrentProcess env s
  | .waiterReaps pid, s => processWait ⟨pid⟩ s

/-- Executes a sequence of calls, one after the other. -/
def runCalls (env : Env) (calls : List Call) (s : State) : State :=
  calls.foldl (fun s c => c.exec env s) s

/-- The effects of a trace. -/
def effects (trace : List Step) : List Effect := trace.map (·.effect)

/-- The effects added to the trace of `s` by an execution that ends in `t`. -/
def newEffects (s t : State) : List Effect := effects (t.trace.drop s.trace.length)

/-- Tells the effects that act on a process: signals, sleeps and waits. -/
def Effect.isProcessAction : Effect → Bool
  | .kill _ _ _ => true
  | .sleep _ => true
  | .wait _ => true
  | _ => false

/-! ## Vocabulary of the statements -/

/-- The debug lines of a trace: present when `debugMode` is set. -/
def debugLine (debugMode : Bool) (format : String) (args : List Int) : List Effect :=
  if debugMode then [.log format args] else []

/-- The effects of the second stage of the escalation, as the spec words them:
a forceful kill of the group, a forceful kill of the pid when the first one
failed, then the wait. -/
def forceKillEffects (debugMode : Bool) (pid : Int) (groupErr directErr : Option Error) :
    List Effect :=
  debugLine debugMode "sending kill signal to pid %d" [pid]
    ++ [.kill (-pid) .SIGKILL groupErr]
    ++ (if groupErr ≠ none then [.kill pid .SIGKILL directErr] else [])
    ++ debugLine debugMode "waiting for process to exit" []
    ++ [.wait pid]

/-- The effects of the first stage of the escalation in `killCmd`: nothing
unless `sendInterrupt` is set; otherwise the interrupt of the group, the
interrupt of the pid when the first one failed, then the sleep. -/
def interruptEffects (debugMode sendInterrupt : Bool) (pid : Int)
    (groupErr directErr : Option Error) (killDelay : Nat) : List Effect :=
  if sendInterrupt then
    debugLine debugMode "sending interrupt signal to pid %d" [pid]
      ++ [.kill (-pid) .SIGINT groupErr]
      ++ (if groupErr ≠ none then [.kill pid .SIGINT directErr] else [])
      ++ [.sleep killDelay]
  else []

/-- The number of interrupts sent by `killCmd` before the forceful kill. -/
def interruptCalls (sendInterrupt : Bool) (groupErr : Option Error) : Nat :=
  if sendInterrupt then (if groupErr ≠ none then 2 else 1) else 0

/-- The index, among the system calls, of the forceful kill of the group in
`killCmd`. -/
def forceCall (env : Env) (s : State) : Nat :=
  s.calls + interruptCalls s.e.config.Build.SendInterrupt (env.kill s.calls)

/-- A state in which the child 7 runs, with `sendInterrupt` set as given, a kill
delay of 500 ms and debug mode off. -/
def runningState (sendInterrupt : Bool) : State :=
  { e := { config := ⟨⟨"./tmp/main", [], sendInterrupt⟩, 500 * 1000000⟩, debugMode := false,
           currentCmd := some ⟨some ⟨7⟩⟩, running := true, exitChClosed := false },
    live := [7], calls := 0, trace := [] }

/-- An environment in which every signal fails with error 3, the build succeeds
and every start fails. -/
def noSuchProcess : Env := ⟨fun _ => some 3, fun _ => none, fun _ => .error 2⟩

/-- An environment in which every signal fails with error 3, as for a process
that is gone, while builds and starts succeed; the n-th call, when a start,
yields the pid `100 + n`. -/
def signalsFail : Env := ⟨fun _ => some 3, fun _ => none, fun n => .ok (100 + n)⟩

/-- An environment in which every call succeeds; the n-th call, when a start,
yields the pid `100 + n`. -/
def allSucceed : Env := ⟨fun _ => none, fun _ => none, fun n => .ok (100 + n)⟩

/-- The steps of `killCurrentProcess` on a started child `p`: all but the last
are issued while the child is still stored and not yet reaped. -/
def killSteps (env : Env) (s : State) (p : Process) : List Step :=
  [⟨.lock, s.e.currentCmd, s.live⟩,
   ⟨.log "Killing process %d" [p.Pid], s.e.currentCmd, s.live⟩,
   ⟨.kill (-p.Pid) .SIGINT (env.kill s.calls), s.e.currentCmd, s.live⟩]
  ++ (if env.kill s.calls = none then [⟨.sleep hundredMilliseconds, s.e.currentCmd, s.live⟩]
      else [])
  ++ [⟨.kill (-p.Pid) .SIGKILL (env.kill (s.calls + 1)), s.e.currentCmd, s.live⟩]
  ++ (if env.kill (s.calls + 1) ≠ none
      then [⟨.kill p.Pid .SIGKILL (env.kill (s.calls + 2)), s.e.currentCmd, s.live⟩] else [])
  ++ [⟨.wait p.Pid, s.e.currentCmd, s.live⟩, ⟨.unlock, none, s.live.erase p.Pid⟩]

/-- The effects of `killSteps`. -/
def killEffects (pid : Int) (intErr groupErr directErr : Option Error) : List Effect :=
  [.lock, .log "Killing process %d" [pid], .kill (-pid) .SIGINT intErr]
  ++ (if intErr = none then [.sleep hundredMilliseconds] else [])
  ++ [.kill (-pid) .SIGKILL groupErr]
  ++ (if groupErr ≠ none then [.kill pid .SIGKILL directErr] else [])
  ++ [.wait pid, .unlock]

/-- The configuration used in the examples: the binary `./tmp/main`, no include
list, `sendInterrupt` unset, a kill delay of 500 ms. -/
def exampleConfig : Config := ⟨⟨"./tmp/main", [], false⟩, 500 * 1000000⟩

/-- Lines 129 to 158 of `Engine.rebuild`: what follows the stop of the previous
child. -/
def buildAndRun (env : Env) (s : State) : State :=
  let s := mainLog "Building..." [] s
  let (err, s) := runBuild env s
  match err with
  | some err => mainLog "Build failed: %v" [err] s
  | none =>
    let s := mainLog "Running..." [] s
    let s := emit .lock s
    let (r, s) := cmdStart env s
    match r with
    | .error err =>
      let s := mainLog "Failed to start process: %v" [err] s
      emit .unlock s
    | .ok cmd =>
      let s := { s with e := { s.e with currentCmd := some cmd } }
      let s := emit .unlock s
      goWait cmd s

/-- Every stored command has been started. -/
def Started (s : State) : Prop :=
  ∀ cmd, s.e.currentCmd = some cmd → cmd.Process ≠ none

/-- At most one child is started and not yet reaped, and such a child is the
one stored in `currentCmd`. -/
def OneChild (currentCmd : Option Cmd) (live : List Int) : Prop :=
  live.length ≤ 1 ∧ ∀ pid ∈ live, currentCmd = some ⟨some ⟨pid⟩⟩

/-- Tells the run of the build command and the start of a child. -/
def Effect.isBuildOrStart : Effect → Bool
  | .run _ _ => true
  | .start _ _ => true
  | _ => false

/-- A step is in order when it is issued with at most one live child, the
stored one, and, for the build and for the start of a child, with no live child
and no stored command at all. -/
def Step.InOrder (st : Step) : Prop :=
  OneChild st.currentCmd st.live ∧
    (st.effect.isBuildOrStart = true → st.live = [] ∧ st.currentCmd = none)

/-- The pid of the child started by an effect, for a start that succeeds. -/
def Effect.startedPid : Effect → Option Int
  | .start _ (.ok pid) => some pid
  | _ => none

/-- The step after a successful start is issued with the new child stored in
`currentCmd`, as the only live child. -/
def StoredNext (st next : Step) : Prop :=
  ∀ pid, st.effect.startedPid = some pid →
    next.currentCmd = some ⟨some ⟨pid⟩⟩ ∧ next.live = [pid]

/-- A trace is in order when each of its steps is, when each successful start
is followed by a step that sees the new child stored, and when it does not end
on a start. -/
def TraceOK (tr : List Step) : Prop :=
  (∀ st ∈ tr, st.InOrder) ∧ List.Chain' StoredNext tr ∧
    ∀ st ∈ tr.getLast?, st.effect.startedPid = none

/-- The invariant of the sequential executions. -/
def Inv (s : State) : Prop :=
  TraceOK s.trace ∧ OneChild s.e.currentCmd s.live ∧ Started s

end Air

namespace Air

/-! ## Lemmas on the path functions -/

theorem extScan_nil_or_suffix (rev acc : List Char) :
    extScan rev acc = [] ∨ extScan rev acc <:+ rev.reverse ++ acc := by
  induction rev generalizing acc with
  | nil => exact Or.inl rfl
  | cons c rev ih =>
    unfold extScan
    by_cases hsep : isPathSeparator c = true
    · simp [hsep]
    · by_cases hdot : (c == '.') = true
      · right
        simp only [hsep, hdot, if_true, Bool.false_eq_true, if_false]
        exact ⟨rev.reverse, by simp⟩
      · simp only [hsep, hdot, Bool.false_eq_true, if_false]
        rcases ih (c :: acc) with h | h
        · exact Or.inl h
        · right
          simpa using h

theorem extScan_append_sep (l rest acc : List Char) (h : ∀ c ∈ l, isPathSeparator c = false) :
    extScan (l ++ '/' :: rest) acc = extScan l acc := by
  induction l generalizing acc with
  | nil => simp [extScan, isPathSeparator]
  | cons c l ih =>
    have hc : isPathSeparator c = false := h c (List.mem_cons_self _ _)
    have hl : ∀ d ∈ l, isPathSeparator d = false := fun d hd => h d (List.mem_cons_of_mem _ hd)
    simp only [List.cons_append, extScan, hc, Bool.false_eq_true, if_false]
    by_cases hdot : (c == '.') = true
    · simp [hdot]
    · simp only [hdot, Bool.false_eq_true, if_false]
      exact ih _ hl

theorem Ext_suffix (path : Path) : Ext path = [] ∨ Ext path <:+ path := by
  have h := extScan_nil_or_suffix path.reverse []
  simpa [Ext] using h

theorem Ext_eq_go_iff (path : Path) : Ext path = ".go".toList ↔ ".go".toList <:+ path := by
  constructor
  · intro h
    rcases Ext_suffix path with h0 | h1
    · rw [h] at h0
      exact absurd h0 (by decide)
    · rw [h] at h1
      exact h1
  · rintro ⟨pre, rfl⟩
    simp [Ext, extScan, isPathSeparator]

theorem Ext_join (dir name : Path) (h : ∀ c ∈ name, isPathSeparator c = false) :
    Ext (dir ++ '/' :: name) = Ext name := by
  unfold Ext
  have hrev : ∀ c ∈ name.reverse, isPathSeparator c = false := fun c hc =>
    h c (List.mem_reverse.mp hc)
  have := extScan_append_sep name.reverse dir.reverse [] hrev
  simpa using this

/-! ## The change classifier -/

theorem isValidChange_eq_true_iff (event : Event) :
    isValidChange event = true ↔
      (event.Op.Has Op.Write = true ∨ event.Op.Has Op.Create = true) ∧
        Ext event.Name = ".go".toList := by
  unfold isValidChange Op.Has
  by_cases hw : event.Op &&& Op.Write = Op.Write <;>
    by_cases hc : event.Op &&& Op.Create = Op.Create <;> simp [hw, hc]

/-- C7: for every event, `isValidChange` is true exactly when the operation set
includes write or create and the extension of the path is `.go`, that is, when
the path ends in `.go`; an event made only of remove, rename and chmod is never
valid, and neither is an event on a path with another extension. -/
theorem isValidChange_iff_write_or_create_and_go :
    (∀ event : Event, isValidChange event = true ↔
      (event.Op.Has Op.Write = true ∨ event.Op.Has Op.Create = true) ∧
        Ext event.Name = ".go".toList) ∧
    (∀ event : Event, isValidChange event = true ↔
      (event.Op.Has Op.Write = true ∨ event.Op.Has Op.Create = true) ∧
        ".go".toList <:+ event.Name) ∧
    (∀ (name : Path) (remove rename chmod : Bool),
      isValidChange ⟨name, (if remove then Op.Remove else 0) ||| (if rename then Op.Rename else 0)
        ||| (if chmod then Op.Chmod else 0)⟩ = false) ∧
    (∀ event : Event, Ext event.Name ≠ ".go".toList → isValidChange event = false) := by
  have key := isValidChange_eq_true_iff
  refine ⟨key, ?_, ?_, ?_⟩
  · intro event
    rw [key, Ext_eq_go_iff]
  · intro name remove rename chmod
    have hop : ∀ o : Op, o &&& Op.Write ≠ Op.Write → o &&& Op.Create ≠ Op.Create →
        isValidChange ⟨name, o⟩ = false := by
      intro o h1 h2
      simp [isValidChange, h1, h2]
    cases remove <;> cases rename <;> cases chmod <;> exact hop _ (by decide) (by decide)
  · intro event hne
    cases hv : isValidChange event with
    | false => rfl
    | true => exact absurd ((key event).mp hv).2 hne

/-- Witness for C7 : a write of `main.go` is valid, a write of `main.txt` and a
rename of `main.go` are not. -/
theorem isValidChange_iff_write_or_create_and_go_witness :
    isValidChange ⟨"main.go".toList, Op.Write⟩ = true ∧
    isValidChange ⟨"main.txt".toList, Op.Write⟩ = false ∧
    isValidChange ⟨"main.go".toList, Op.Rename⟩ = false :=
  ⟨(isValidChange_iff_write_or_create_and_go.1 _).mpr ⟨Or.inl (by decide), by decide⟩,
   isValidChange_iff_write_or_create_and_go.2.2.2 _ (by decide),
   isValidChange_iff_write_or_create_and_go.2.2.1 _ false true false⟩

/-- C8, counterexample: a write of `vendor/lib/x.go`, a path under the excluded
directory `vendor`, is classified as a valid change. -/
theorem isValidChange_under_vendor :
    "vendor".toList ∈ excludeDirs ∧
    "vendor".toList ∈ splitSep "vendor/lib/x.go".toList ∧
    isExcluded "vendor".toList = true ∧
    isValidChange ⟨"vendor/lib/x.go".toList, Op.Write⟩ = true := by
  decide

/-- C8, amended: the classifier does not look at the directories of the path.
For every directory `dir`, excluded or not, and every file name without a
separator, the event on `dir/name` is classified as the event on `name` alone;
so a write or a create of a file whose name ends in `.go` is valid under every
directory.  Exclusion is applied when directories are registered, not here. -/
theorem isValidChange_ignores_directory (dir name : Path) (op : Op)
    (hname : ∀ c ∈ name, isPathSeparator c = false) :
    isValidChange ⟨dir ++ '/' :: name, op⟩ = isValidChange ⟨name, op⟩ ∧
    ((op.Has Op.Write = true ∨ op.Has Op.Create = true) → ".go".toList <:+ name →
      isValidChange ⟨dir ++ '/' :: name, op⟩ = true) := by
  have heq : isValidChange ⟨dir ++ '/' :: name, op⟩ = isValidChange ⟨name, op⟩ := by
    simp only [isValidChange, Ext_join dir name hname]
  refine ⟨heq, fun hop hgo => ?_⟩
  rw [heq]
  exact (isValidChange_eq_true_iff ⟨name, op⟩).mpr ⟨hop, (Ext_eq_go_iff name).mpr hgo⟩

/-- Witness for C8 : the file `x.go` under `node_modules/pkg`. -/
theorem isValidChange_ignores_directory_witness :
    isValidChange ⟨"node_modules/pkg".toList ++ '/' :: "x.go".toList, Op.Create⟩ =
      isValidChange ⟨"x.go".toList, Op.Create⟩ ∧
    isValidChange ⟨"node_modules/pkg".toList ++ '/' :: "x.go".toList, Op.Create⟩ = true :=
  ⟨(isValidChange_ignores_directory "node_modules/pkg".toList "x.go".toList Op.Create
      (by decide)).1,
   (isValidChange_ignores_directory "node_modules/pkg".toList "x.go".toList Op.Create
      (by decide)).2 (Or.inr (by decide)) (by decide)⟩

/-! ## The include list -/

theorem checkIncludeLoop_snd (cleanPath : Path) (l : List Path) :
    (checkIncludeLoop cleanPath l).2 = true ↔ ∃ d ∈ l, d <+: cleanPath := by
  induction l with
  | nil => simp [checkIncludeLoop]
  | cons d ds ih =>
    unfold checkIncludeLoop
    by_cases heq : cleanPath = d
    · subst heq
      simp
    · by_cases hpre : HasPrefix cleanPath d = true
      · have hp : d <+: cleanPath := by simpa [HasPrefix] using hpre
        simp [heq, hpre, hp]
      · have hp : ¬ d <+: cleanPath := by simpa [HasPrefix] using hpre
        simp [heq, hpre, hp, ih]

theorem checkIncludeLoop_fst (cleanPath : Path) (l : List Path) :
    (checkIncludeLoop cleanPath l).1 = true ↔
      ∃ l₁ l₂, l = l₁ ++ cleanPath :: l₂ ∧ ∀ d ∈ l₁, ¬ d <+: cleanPath := by
  induction l with
  | nil => simp [checkIncludeLoop]
  | cons d ds ih =>
    unfold checkIncludeLoop
    by_cases heq : cleanPath = d
    · subst heq
      simp only [if_true, true_iff]
      exact ⟨[], ds, rfl, by simp⟩
    · by_cases hpre : HasPrefix cleanPath d = true
      · have hp : d <+: cleanPath := by simpa [HasPrefix] using hpre
        simp only [heq, hpre, if_false, if_true, Bool.false_eq_true, false_iff]
        rintro ⟨l₁, l₂, hl, hno⟩
        cases l₁ with
        | nil =>
          simp only [List.nil_append, List.cons.injEq] at hl
          exact heq hl.1.symm
        | cons a l₁ =>
          simp only [List.cons_append, List.cons.injEq] at hl
          exact hno a (List.mem_cons_self _ _) (hl.1 ▸ hp)
      · have hp : ¬ d <+: cleanPath := by simpa [HasPrefix] using hpre
        simp only [heq, hpre, if_false, Bool.false_eq_true]
        rw [ih]
        constructor
        · rintro ⟨l₁, l₂, hl, hno⟩
          refine ⟨d :: l₁, l₂, by simp [hl], ?_⟩
          intro a ha
          rcases List.mem_cons.mp ha with rfl | ha
          · exact hp
          · exact hno a ha
        · rintro ⟨l₁, l₂, hl, hno⟩
          cases l₁ with
          | nil =>
            simp only [List.nil_append, List.cons.injEq] at hl
            exact absurd hl.1.symm heq
          | cons a l₁ =>
            simp only [List.cons_append, List.cons.injEq] at hl
            exact ⟨l₁, l₂, hl.2, fun b hb => hno b (List.mem_cons_of_mem _ hb)⟩

theorem checkIncludeLoop_fst_imp_snd (cleanPath : Path) (l : List Path) :
    (checkIncludeLoop cleanPath l).1 = true → (checkIncludeLoop cleanPath l).2 = true := by
  induction l with
  | nil => simp [checkIncludeLoop]
  | cons d ds ih =>
    unfold checkIncludeLoop
    by_cases heq : cleanPath = d
    · simp [heq]
    · by_cases hpre : HasPrefix cleanPath d = true
      · simp [heq, hpre]
      · simpa [heq, hpre] using ih

/-- C10, counterexample: with the include list `["src"]` the sibling `src2`,
neither equal to `src` nor under `src/`, is reported as included; and with the
include list `["src", "src/app"]` the path `src/app`, equal to the second entry,
is not reported as an exact match. -/
theorem checkIncludeDir_sibling_and_order :
    checkIncludeDir ["src".toList] "src2".toList = (false, true) ∧
    Clean "src2".toList ≠ "src".toList ∧
    ¬ "src/".toList <+: Clean "src2".toList ∧
    checkIncludeDir ["src".toList, "src/app".toList] "src/app".toList = (false, true) ∧
    Clean "src/app".toList ∈ ["src".toList, "src/app".toList] := by
  decide

/-- C10, amended: with an empty include list every path is reported as
`(true, true)`.  Otherwise the directory is reported as included (second
result) exactly when some include entry is a string prefix of the cleaned
path, which covers an entry equal to it, a directory under it and also a
sibling whose name starts with the entry; the first result is true only for a
cleaned path that is an include entry, and it is true whenever the cleaned path
is an include entry and no entry listed before it is a prefix of the cleaned
path; and the result is `(false, false)` exactly when no entry is a prefix of
the cleaned path. -/
theorem checkIncludeDir_first_match_policy (includeDir : List Path) (path : Path) :
    (includeDir = [] → checkIncludeDir includeDir path = (true, true)) ∧
    (includeDir ≠ [] →
      ((checkIncludeDir includeDir path).2 = true ↔ ∃ d ∈ includeDir, d <+: Clean path) ∧
      ((checkIncludeDir includeDir path).1 = true → Clean path ∈ includeDir) ∧
      (∀ l₁ l₂, includeDir = l₁ ++ Clean path :: l₂ → (∀ d ∈ l₁, ¬ d <+: Clean path) →
        (checkIncludeDir includeDir path).1 = true) ∧
      (checkIncludeDir includeDir path = (false, false) ↔
        ∀ d ∈ includeDir, ¬ d <+: Clean path)) := by
  constructor
  · rintro rfl
    simp [checkIncludeDir]
  · intro hne
    have hlen : ¬ includeDir.length = 0 := by simpa using hne
    have hdef : checkIncludeDir includeDir path = checkIncludeLoop (Clean path) includeDir := by
      simp [checkIncludeDir, hlen]
    rw [hdef]
    have h1 := checkIncludeLoop_fst (Clean path) includeDir
    have h2 := checkIncludeLoop_snd (Clean path) includeDir
    have h12 := checkIncludeLoop_fst_imp_snd (Clean path) includeDir
    refine ⟨h2, ?_, ?_, ?_⟩
    · intro h
      obtain ⟨l₁, l₂, hl, -⟩ := h1.mp h
      rw [hl]
      simp
    · intro l₁ l₂ hl hno
      exact h1.mpr ⟨l₁, l₂, hl, hno⟩
    constructor
    · intro h d hd hp
      have : (checkIncludeLoop (Clean path) includeDir).2 = true := h2.mpr ⟨d, hd, hp⟩
      rw [h] at this
      exact absurd this (by decide)
    · intro h
      have hs : (checkIncludeLoop (Clean path) includeDir).2 = false := by
        cases hv : (checkIncludeLoop (Clean path) includeDir).2 with
        | false => rfl
        | true =>
          obtain ⟨d, hd, hp⟩ := h2.mp hv
          exact absurd hp (h d hd)
      have hf : (checkIncludeLoop (Clean path) includeDir).1 = false := by
        cases hv : (checkIncludeLoop (Clean path) includeDir).1 with
        | false => rfl
        | true =>
          rw [h12 hv] at hs
          exact absurd hs (by decide)
      exact Prod.ext hf hs

/-- Witness for C10 : the include list `["src", "cmd"]`, on the path
`./cmd/tool/`, whose cleaned form `cmd/tool` has the entry `cmd` as a prefix,
and on the path `cmd/`, whose cleaned form is the entry `cmd`. -/
theorem checkIncludeDir_first_match_policy_witness :
    ["src".toList, "cmd".toList] ≠ [] ∧
    ((checkIncludeDir ["src".toList, "cmd".toList] "./cmd/tool/".toList).2 = true ↔
      ∃ d ∈ ["src".toList, "cmd".toList], d <+: Clean "./cmd/tool/".toList) ∧
    (checkIncludeDir ["src".toList, "cmd".toList] "cmd/".toList).1 = true ∧
    (checkIncludeDir [] "./cmd/tool/".toList = (true, true)) :=
  ⟨by decide,
   ((checkIncludeDir_first_match_policy ["src".toList, "cmd".toList] "./cmd/tool/".toList).2
      (by decide)).1,
   ((checkIncludeDir_first_match_policy ["src".toList, "cmd".toList] "cmd/".toList).2
      (by decide)).2.2.1 ["src".toList] [] (by decide) (by decide),
   (checkIncludeDir_first_match_policy [] "./cmd/tool/".toList).1 rfl⟩

/-! ## Watcher registration -/

/-- C9, evaluation at the failing input: in a working directory that holds
`src/`, `src/vendor/` and `src/vendor/x/`, `setupWatcher` returns without
error, registers `src`, does not register `src/vendor`, and registers
`src/vendor/x`, a directory beneath the excluded directory `src/vendor`. -/
theorem setupWatcher_registers_below_excluded :
    setupWatcher (fun _ => none) vendorTree =
      (none, [".".toList, "src".toList, "src/vendor/x".toList, "src".toList,
        "src/vendor/x".toList]) ∧
    isExcluded "src/vendor".toList = true ∧
    "src".toList ∈ (setupWatcher (fun _ => none) vendorTree).2 ∧
    "src/vendor".toList ∉ (setupWatcher (fun _ => none) vendorTree).2 ∧
    "src/vendor/x".toList ∈ (setupWatcher (fun _ => none) vendorTree).2 := by
  decide

/-! ## Stopping a process: `killCmd` -/

theorem newEffects_of_trace (s t : State) (steps : List Step)
    (h : t.trace = s.trace ++ steps) : newEffects s t = effects steps := by
  simp [newEffects, h]

theorem killCmdForce_spec (env : Env) (p : Process) (s : State) :
    (killCmdForce env p s).1 =
        (p.Pid, if env.kill s.calls ≠ none then env.kill (s.calls + 1) else none) ∧
    (killCmdForce env p s).2.e = s.e ∧
    (killCmdForce env p s).2.live = s.live.erase p.Pid ∧
    ∃ steps, (killCmdForce env p s).2.trace = s.trace ++ steps ∧
      effects steps =
        forceKillEffects s.e.debugMode p.Pid (env.kill s.calls) (env.kill (s.calls + 1)) := by
  cases hd : s.e.debugMode <;> cases h1 : env.kill s.calls <;>
    simp [killCmdForce, mainDebug, mainLog, sysKill, processWait, emit, effects,
      forceKillEffects, debugLine, hd, h1]

/-- C4: when `sendInterrupt` is set and the interrupt of the group is delivered,
`killCmd` performs exactly these process actions, in this order: the interrupt
to `-pid`, a sleep of the configured kill delay, SIGKILL to `-pid`, SIGKILL to
`pid` if and only if the SIGKILL of the group failed, and the wait on the
process.  The wait is the last effect before `killCmd` returns, and the child
is reaped on return. -/
theorem killCmd_escalation_order (env : Env) (p : Process) (s : State)
    (hint : s.e.config.Build.SendInterrupt = true) (hok : env.kill s.calls = none) :
    ∃ t, killCmd env ⟨some p⟩ s =
        .ok ((p.Pid, if env.kill (s.calls + 1) ≠ none then env.kill (s.calls + 2) else none), t) ∧
      (newEffects s t).filter Effect.isProcessAction =
        [.kill (-p.Pid) .SIGINT none, .sleep s.e.config.killDelay,
          .kill (-p.Pid) .SIGKILL (env.kill (s.calls + 1))]
        ++ (if env.kill (s.calls + 1) ≠ none
            then [.kill p.Pid .SIGKILL (env.kill (s.calls + 2))] else [])
        ++ [.wait p.Pid] ∧
      (newEffects s t).getLast? = some (.wait p.Pid) ∧
      t.live = s.live.erase p.Pid := by
  cases hd : s.e.debugMode <;> cases h1 : env.kill (s.calls + 1) <;>
    simp [killCmd, killCmdForce, mainDebug, mainLog, sysKill, processWait, sleep, emit, effects,
      newEffects, Effect.isProcessAction, hint, hok, hd, h1]

/-- C3, counterexample: with `sendInterrupt` set, when both the interrupt of
the group and the interrupt of the pid fail, `killCmd` returns that error after
the two interrupts: no SIGKILL is sent, the process is not waited for, and the
child is still unreaped on return. -/
theorem killCmd_returns_when_interrupts_fail :
    ∃ t, killCmd noSuchProcess ⟨some ⟨7⟩⟩ (runningState true) = .ok ((7, some 3), t) ∧
      newEffects (runningState true) t =
        [.kill (-7) .SIGINT (some 3), .kill 7 .SIGINT (some 3)] ∧
      t.live = [7] :=
  ⟨_, rfl, by decide, by decide⟩

/-- C3, amended: for every started command, unless `sendInterrupt` is set and
both the interrupt of the group and the interrupt of the pid fail, `killCmd`
sends SIGKILL to the process group, sends SIGKILL to the pid exactly when the
kill of the group failed, and ends with the wait that reaps the process: its
effects are those of the interrupt stage followed by those of the forceful
stage.  When both interrupts fail, it returns the error of the second one at
once, after the two interrupts alone. -/
theorem killCmd_force_kill_and_reap (env : Env) (p : Process) (s : State) :
    (¬ (s.e.config.Build.SendInterrupt = true ∧ env.kill s.calls ≠ none ∧
          env.kill (s.calls + 1) ≠ none) →
      ∃ t, killCmd env ⟨some p⟩ s =
          .ok ((p.Pid, if env.kill (forceCall env s) ≠ none then env.kill (forceCall env s + 1)
                else none), t) ∧
        newEffects s t =
          interruptEffects s.e.debugMode s.e.config.Build.SendInterrupt p.Pid
              (env.kill s.calls) (env.kill (s.calls + 1)) s.e.config.killDelay
            ++ forceKillEffects s.e.debugMode p.Pid
              (env.kill (forceCall env s)) (env.kill (forceCall env s + 1)) ∧
        (newEffects s t).getLast? = some (.wait p.Pid) ∧
        t.live = s.live.erase p.Pid) ∧
    (s.e.config.Build.SendInterrupt = true → env.kill s.calls ≠ none →
        env.kill (s.calls + 1) ≠ none →
      ∃ t, killCmd env ⟨some p⟩ s = .ok ((p.Pid, env.kill (s.calls + 1)), t) ∧
        newEffects s t =
          debugLine s.e.debugMode "sending interrupt signal to pid %d" [p.Pid]
            ++ [.kill (-p.Pid) .SIGINT (env.kill s.calls),
                .kill p.Pid .SIGINT (env.kill (s.calls + 1))] ∧
        t.live = s.live) := by
  constructor
  · intro h
    cases hi : s.e.config.Build.SendInterrupt <;> cases hd : s.e.debugMode <;>
      cases h0 : env.kill s.calls <;> cases h1 : env.kill (s.calls + 1) <;>
      cases h2 : env.kill (s.calls + 2) <;> cases h3 : env.kill (s.calls + 3) <;>
      simp_all [killCmd, killCmdForce, mainDebug, mainLog, sysKill, processWait, sleep, emit,
        effects, newEffects, interruptEffects, forceKillEffects, debugLine, interruptCalls,
        forceCall]
  · intro hi h0 h1
    cases hd : s.e.debugMode <;>
      simp [killCmd, mainDebug, mainLog, sysKill, emit, effects, newEffects, debugLine,
        hi, h0, h1, hd]

/-- Witness for C3 : the child 7 with `sendInterrupt` unset, every signal
succeeding. -/
theorem killCmd_force_kill_and_reap_witness :
    ∃ t, killCmd allSucceed ⟨some ⟨7⟩⟩ (runningState false) = .ok ((7, none), t) ∧
      newEffects (runningState false) t =
        interruptEffects false false 7 none none (500 * 1000000)
          ++ forceKillEffects false 7 none none ∧
      (newEffects (runningState false) t).getLast? = some (.wait 7) ∧
      t.live = [7].erase 7 :=
  (killCmd_force_kill_and_reap allSucceed ⟨7⟩ (runningState false)).1 (by decide)

/-- Witness for C4 : the child 7 with `sendInterrupt` set, every signal
succeeding. -/
theorem killCmd_escalation_order_witness :
    ∃ t, killCmd allSucceed ⟨some ⟨7⟩⟩ (runningState true) = .ok ((7, none), t) ∧
      (newEffects (runningState true) t).filter Effect.isProcessAction =
        [.kill (-7) .SIGINT none, .sleep (500 * 1000000), .kill (-7) .SIGKILL none, .wait 7] ∧
      (newEffects (runningState true) t).getLast? = some (.wait 7) ∧
      t.live = [] :=
  killCmd_escalation_order allSucceed ⟨7⟩ (runningState true) rfl rfl

/-! ## Stopping the current child: `killCurrentProcess` -/

theorem killCurrentProcess_started (env : Env) (s : State) (p : Process)
    (h : s.e.currentCmd = some ⟨some p⟩) :
    killCurrentProcess env s =
      { e := { s.e with currentCmd := none },
        live := s.live.erase p.Pid,
        calls := s.calls + (if env.kill (s.calls + 1) ≠ none then 3 else 2),
        trace := s.trace ++ killSteps env s p } := by
  cases h0 : env.kill s.calls <;> cases h1 : env.kill (s.calls + 1) <;>
    simp [killCurrentProcess, mainLog, sysKill, processWait, sleep, emit, killSteps, h, h0, h1]

theorem killCurrentProcess_idle (env : Env) (s : State)
    (h : s.e.currentCmd.bind (·.Process) = none) :
    killCurrentProcess env s =
      { s with trace := s.trace ++ [⟨.lock, s.e.currentCmd, s.live⟩,
                                    ⟨.unlock, s.e.currentCmd, s.live⟩] } := by
  cases hc : s.e.currentCmd with
  | none => simp [killCurrentProcess, emit, hc]
  | some cmd =>
    have hp : cmd.Process = none := by simpa [hc] using h
    simp [killCurrentProcess, emit, hc, hp]

theorem effects_killSteps (env : Env) (s : State) (p : Process) :
    effects (killSteps env s p) =
      killEffects p.Pid (env.kill s.calls) (env.kill (s.calls + 1)) (env.kill (s.calls + 2)) := by
  cases h0 : env.kill s.calls <;> cases h1 : env.kill (s.calls + 1) <;>
    simp [killSteps, killEffects, effects, h0, h1]

/-- C5, counterexample: with `sendInterrupt` unset and a kill delay of 500 ms,
`killCurrentProcess` still interrupts the group of the running child and
sleeps 100 ms before the forceful kill; and when the interrupt of the group
fails, no interrupt is sent to the pid. -/
theorem killCurrentProcess_ignores_config :
    (runningState false).e.config.Build.SendInterrupt = false ∧
    (runningState false).e.config.killDelay = 500 * 1000000 ∧
    newEffects (runningState false) (killCurrentProcess allSucceed (runningState false)) =
      [.lock, .log "Killing process %d" [7], .kill (-7) .SIGINT none, .sleep (100 * 1000000),
       .kill (-7) .SIGKILL none, .wait 7, .unlock] ∧
    newEffects (runningState true) (killCurrentProcess noSuchProcess (runningState true)) =
      [.lock, .log "Killing process %d" [7], .kill (-7) .SIGINT (some 3),
       .kill (-7) .SIGKILL (some 3), .kill 7 .SIGKILL (some 3), .wait 7, .unlock] := by
  decide

/-- C5, amended: the stop used by the engine does not read the configuration.
For every configuration and every running child, `killCurrentProcess` sends
SIGINT to the process group, with no interrupt of the pid, sleeps the fixed
100 ms exactly when that interrupt was delivered, sends SIGKILL to the group,
sends SIGKILL to the pid exactly when the kill of the group failed, reaps the
child and clears the stored handle. -/
theorem killCurrentProcess_fixed_escalation (env : Env) (s : State) (p : Process)
    (h : s.e.currentCmd = some ⟨some p⟩) :
    newEffects s (killCurrentProcess env s) =
      [.lock, .log "Killing process %d" [p.Pid], .kill (-p.Pid) .SIGINT (env.kill s.calls)]
      ++ (if env.kill s.calls = none then [.sleep (100 * 1000000)] else [])
      ++ [.kill (-p.Pid) .SIGKILL (env.kill (s.calls + 1))]
      ++ (if env.kill (s.calls + 1) ≠ none
          then [.kill p.Pid .SIGKILL (env.kill (s.calls + 2))] else [])
      ++ [.wait p.Pid, .unlock] ∧
    (killCurrentProcess env s).e = { s.e with currentCmd := none } ∧
    (killCurrentProcess env s).live = s.live.erase p.Pid := by
  rw [killCurrentProcess_started env s p h]
  refine ⟨?_, rfl, rfl⟩
  rw [newEffects_of_trace s _ (killSteps env s p) rfl, effects_killSteps]
  rfl

/-- Witness for C5 : the running child 7, with `sendInterrupt` unset. -/
theorem killCurrentProcess_fixed_escalation_witness :
    newEffects (runningState false) (killCurrentProcess allSucceed (runningState false)) =
      [.lock, .log "Killing process %d" [7], .kill (-7) .SIGINT none]
      ++ [.sleep (100 * 1000000)]
      ++ [.kill (-7) .SIGKILL none]
      ++ []
      ++ [.wait 7, .unlock] ∧
    (killCurrentProcess allSucceed (runningState false)).e =
      { (runningState false).e with currentCmd := none } ∧
    (killCurrentProcess allSucceed (runningState false)).live = [7].erase 7 :=
  killCurrentProcess_fixed_escalation allSucceed (runningState false) ⟨7⟩ rfl

theorem killCurrentProcess_clears (env : Env) (s : State) :
    (killCurrentProcess env s).e.currentCmd.bind (·.Process) = none := by
  cases hc : s.e.currentCmd with
  | none =>
    rw [killCurrentProcess_idle env s (by simp [hc])]
    simp [hc]
  | some cmd =>
    cases hp : cmd.Process with
    | none =>
      rw [killCurrentProcess_idle env s (by simp [hc, hp])]
      simp [hc, hp]
    | some p =>
      have hcmd : cmd = ⟨some p⟩ := by
        cases cmd
        simp_all
      rw [killCurrentProcess_started env s p (by rw [hc, hcmd])]
      rfl

theorem killCurrentProcess_exitCh (env : Env) (s : State) :
    (killCurrentProcess env s).e.exitChClosed = s.e.exitChClosed := by
  cases hc : s.e.currentCmd with
  | none => rw [killCurrentProcess_idle env s (by simp [hc])]
  | some cmd =>
    cases hp : cmd.Process with
    | none => rw [killCurrentProcess_idle env s (by simp [hc, hp])]
    | some p =>
      have hcmd : cmd = ⟨some p⟩ := by
        cases cmd
        simp_all
      rw [killCurrentProcess_started env s p (by rw [hc, hcmd])]

/-! ## `Stop` -/

/-- C6, counterexample: on a new engine the first `Stop` completes and the
second `Stop` panics, closing the exit channel that the first one closed.  And
on an engine with no running child, the child 101 having exited and been reaped
by the waiting goroutine while its handle is still stored, `Stop` signals the
pid three times and waits for it. -/
theorem Stop_twice_panics :
    (∃ t, Stop allSucceed (newEngine exampleConfig false) = .ok t ∧
      Stop allSucceed t = .error .closeOfClosedChannel) ∧
    (runCalls signalsFail [.rebuild, .waiterReaps 101] (newEngine exampleConfig false)).live = [] ∧
    (∃ t, Stop signalsFail
        (runCalls signalsFail [.rebuild, .waiterReaps 101] (newEngine exampleConfig false)) = .ok t ∧
      newEffects
        (runCalls signalsFail [.rebuild, .waiterReaps 101] (newEngine exampleConfig false)) t =
        [.lock, .log "Killing process %d" [101], .kill (-101) .SIGINT (some 3),
         .kill (-101) .SIGKILL (some 3), .kill 101 .SIGKILL (some 3), .wait 101, .unlock,
         .closeExitCh]) :=
  ⟨⟨_, rfl, rfl⟩, by decide, ⟨_, rfl, by decide⟩⟩

/-- C6, amended: `Stop` completes without panic on every engine whose exit
channel is still open, hence at its first invocation; it leaves no started
child stored, the exit channel closed and the engine not running.  On an
engine that stores no started handle (`currentCmd` nil) it sends no signal and
reaps nothing.  On an engine that stores a started handle it runs the stop of
`killCurrentProcess` on the stored pid, whether or not that child is still
running, and then closes the exit channel.  The stop of the child itself is
idempotent: a second `killCurrentProcess` sends no signal, reaps nothing and
leaves the engine and the live children as the first one left them. -/
theorem Stop_completes_once_kill_idempotent (env : Env) (s : State) :
    (s.e.exitChClosed = false →
      ∃ t, Stop env s = .ok t ∧ t.e.exitChClosed = true ∧ t.e.running = false ∧
        t.e.currentCmd.bind (·.Process) = none) ∧
    (s.e.exitChClosed = false → s.e.currentCmd.bind (·.Process) = none →
      ∃ t, Stop env s = .ok t ∧ newEffects s t = [.lock, .unlock, .closeExitCh] ∧
        t.live = s.live) ∧
    (s.e.exitChClosed = false → ∀ p : Process, s.e.currentCmd = some ⟨some p⟩ →
      ∃ t, Stop env s = .ok t ∧
        newEffects s t =
          [.lock, .log "Killing process %d" [p.Pid], .kill (-p.Pid) .SIGINT (env.kill s.calls)]
          ++ (if env.kill s.calls = none then [.sleep (100 * 1000000)] else [])
          ++ [.kill (-p.Pid) .SIGKILL (env.kill (s.calls + 1))]
          ++ (if env.kill (s.calls + 1) ≠ none
              then [.kill p.Pid .SIGKILL (env.kill (s.calls + 2))] else [])
          ++ [.wait p.Pid, .unlock, .closeExitCh] ∧
        t.live = s.live.erase p.Pid) ∧
    (newEffects (killCurrentProcess env s)
        (killCurrentProcess env (killCurrentProcess env s)) = [.lock, .unlock] ∧
      (killCurrentProcess env (killCurrentProcess env s)).e = (killCurrentProcess env s).e ∧
      (killCurrentProcess env (killCurrentProcess env s)).live =
        (killCurrentProcess env s).live) := by
  refine ⟨fun hopen => ?_, fun hopen hidle => ?_, fun hopen p hc => ?_, ?_⟩
  · have h1 := killCurrentProcess_exitCh env s
    have h2 := killCurrentProcess_clears env s
    rw [hopen] at h1
    refine ⟨_, by simp only [Stop, h1]; rfl, rfl, rfl, ?_⟩
    simpa [emit] using h2
  · have h1 := killCurrentProcess_exitCh env s
    rw [hopen] at h1
    refine ⟨_, by simp only [Stop, h1]; rfl, ?_, ?_⟩
    · rw [killCurrentProcess_idle env s hidle]
      simp [newEffects, effects, emit]
    · rw [killCurrentProcess_idle env s hidle]
      simp [emit]
  · have h1 := killCurrentProcess_exitCh env s
    rw [hopen] at h1
    refine ⟨_, by simp only [Stop, h1]; rfl, ?_, ?_⟩
    · rw [killCurrentProcess_started env s p hc]
      rw [newEffects_of_trace s _
        (killSteps env s p ++ [⟨.closeExitCh, none, s.live.erase p.Pid⟩])
        (by simp [emit])]
      simp only [effects, List.map_append]
      have := effects_killSteps env s p
      simp only [effects] at this
      rw [this]
      simp [killEffects, hundredMilliseconds]
    · rw [killCurrentProcess_started env s p hc]
      simp [emit]
  · rw [killCurrentProcess_idle env (killCurrentProcess env s) (killCurrentProcess_clears env s)]
    simp [newEffects, effects]

/-- Witness for C6 : a new engine, whose exit channel is open and which stores
no handle, and the engine that runs the child 7, every signal succeeding. -/
theorem Stop_completes_once_kill_idempotent_witness :
    (∃ t, Stop allSucceed (runningState false) = .ok t ∧ t.e.exitChClosed = true ∧
      t.e.running = false ∧ t.e.currentCmd.bind (·.Process) = none) ∧
    (∃ t, Stop allSucceed (newEngine exampleConfig false) = .ok t ∧
      newEffects (newEngine exampleConfig false) t = [.lock, .unlock, .closeExitCh] ∧
      t.live = (newEngine exampleConfig false).live) ∧
    (∃ t, Stop allSucceed (runningState false) = .ok t ∧
      newEffects (runningState false) t =
        [.lock, .log "Killing process %d" [7], .kill (-7) .SIGINT none]
        ++ [.sleep (100 * 1000000)]
        ++ [.kill (-7) .SIGKILL none]
        ++ []
        ++ [.wait 7, .unlock, .closeExitCh] ∧
      t.live = [7].erase 7) :=
  ⟨(Stop_completes_once_kill_idempotent allSucceed (runningState false)).1 rfl,
   (Stop_completes_once_kill_idempotent allSucceed (newEngine exampleConfig false)).2.1 rfl rfl,
   (Stop_completes_once_kill_idempotent allSucceed (runningState false)).2.2.1 rfl ⟨7⟩ rfl⟩

/-! ## `rebuild` -/

theorem rebuild_eq (env : Env) (s : State) :
    rebuild env s = buildAndRun env (killCurrentProcess env s) := rfl

theorem Started.cases {s : State} (h : Started s) :
    s.e.currentCmd = none ∨ ∃ p, s.e.currentCmd = some ⟨some p⟩ := by
  cases hc : s.e.currentCmd with
  | none => exact Or.inl rfl
  | some cmd =>
    right
    cases hp : cmd.Process with
    | none => exact absurd hp (h cmd hc)
    | some p =>
      refine ⟨p, ?_⟩
      cases cmd
      simp_all

theorem killCurrentProcess_trace (env : Env) (s : State) (h : Started s) :
    (killCurrentProcess env s).e.currentCmd = none ∧
    (∀ pid ∈ (killCurrentProcess env s).live, pid ∈ s.live) ∧
    ∃ steps, (killCurrentProcess env s).trace = s.trace ++ steps ∧
      ∀ ef ∈ effects steps, ∀ bin r, ef ≠ Effect.start bin r := by
  rcases h.cases with hc | ⟨p, hc⟩
  · rw [killCurrentProcess_idle env s (by simp [hc])]
    refine ⟨hc, fun pid hpid => hpid, _, rfl, ?_⟩
    simp [effects]
  · rw [killCurrentProcess_started env s p hc]
    refine ⟨rfl, fun pid hpid => List.mem_of_mem_erase hpid, _, rfl, ?_⟩
    rw [effects_killSteps]
    cases env.kill s.calls <;> cases env.kill (s.calls + 1) <;> simp [killEffects]

/-- C2: in every engine state, with or without a running child, if the build
command run by `rebuild` fails, then `rebuild` logs the build failure right
after the build, starts no process, adds no live child, and returns with no
stored command. -/
theorem rebuild_build_failure (env : Env) (s : State) (err : Error)
    (hstarted : Started s)
    (hfail : env.build (killCurrentProcess env s).calls = some err) :
    (rebuild env s).e.currentCmd = none ∧
    newEffects (killCurrentProcess env s) (rebuild env s) =
      [.log "Building..." [], .run ["go", "build", "-o", s.e.config.Build.Bin] (some err),
       .log "Build failed: %v" [err]] ∧
    (∀ bin r, Effect.start bin r ∉ newEffects s (rebuild env s)) ∧
    (∀ pid ∈ (rebuild env s).live, pid ∈ s.live) := by
  obtain ⟨hcur, hlive, steps, htrace, hnostart⟩ := killCurrentProcess_trace env s hstarted
  have hcfg : (killCurrentProcess env s).e.config = s.e.config := by
    rcases hstarted.cases with hc | ⟨p, hc⟩
    · rw [killCurrentProcess_idle env s (by simp [hc])]
    · rw [killCurrentProcess_started env s p hc]
  have ht : (rebuild env s).trace = (killCurrentProcess env s).trace ++
      [⟨.log "Building..." [], none, (killCurrentProcess env s).live⟩,
       ⟨.run ["go", "build", "-o", s.e.config.Build.Bin] (some err), none,
          (killCurrentProcess env s).live⟩,
       ⟨.log "Build failed: %v" [err], none, (killCurrentProcess env s).live⟩] := by
    simp [rebuild_eq, buildAndRun, runBuild, mainLog, emit, hfail, hcur, hcfg]
  refine ⟨?_, ?_, ?_, ?_⟩
  · simp [rebuild_eq, buildAndRun, runBuild, mainLog, emit, hfail, hcur]
  · rw [newEffects_of_trace _ _ _ ht]
    rfl
  · intro bin r hmem
    rw [htrace, List.append_assoc] at ht
    rw [newEffects_of_trace _ _ _ ht] at hmem
    simp only [effects, List.map_append, List.mem_append] at hmem
    rcases hmem with hmem | hmem
    · exact hnostart _ hmem bin r rfl
    · simp at hmem
  · intro pid hpid
    apply hlive
    simpa [rebuild_eq, buildAndRun, runBuild, mainLog, emit, hfail] using hpid

/-- Witness for C2 : the running child 7 and a build that fails with error 1. -/
theorem rebuild_build_failure_witness :
    (rebuild ⟨fun _ => none, fun _ => some 1, fun _ => .ok 8⟩ (runningState false)).e.currentCmd
      = none ∧
    newEffects (killCurrentProcess ⟨fun _ => none, fun _ => some 1, fun _ => .ok 8⟩
        (runningState false))
      (rebuild ⟨fun _ => none, fun _ => some 1, fun _ => .ok 8⟩ (runningState false)) =
      [.log "Building..." [], .run ["go", "build", "-o", "./tmp/main"] (some 1),
       .log "Build failed: %v" [1]] ∧
    (∀ bin r, Effect.start bin r ∉
      newEffects (runningState false)
        (rebuild ⟨fun _ => none, fun _ => some 1, fun _ => .ok 8⟩ (runningState false))) ∧
    (∀ pid ∈ (rebuild ⟨fun _ => none, fun _ => some 1, fun _ => .ok 8⟩
        (runningState false)).live, pid ∈ (runningState false).live) :=
  rebuild_build_failure ⟨fun _ => none, fun _ => some 1, fun _ => .ok 8⟩ (runningState false) 1
    (by intro cmd h; cases h; simp) rfl

/-! ## The invariant: at most one live child -/

theorem OneChild.live_nil {live : List Int} (h : OneChild none live) : live = [] := by
  cases live with
  | nil => rfl
  | cons a l => exact absurd (h.2 a (List.mem_cons_self _ _)) (by simp)

theorem OneChild.erase {c : Option Cmd} {live : List Int} (h : OneChild c live) (pid : Int) :
    OneChild c (live.erase pid) :=
  ⟨le_trans (List.erase_sublist pid live).length_le h.1,
    fun q hq => h.2 q (List.mem_of_mem_erase hq)⟩

theorem OneChild.erase_stored {p : Process} {live : List Int}
    (h : OneChild (some ⟨some p⟩) live) : live.erase p.Pid = [] := by
  match live, h with
  | [], _ => rfl
  | [a], h =>
    have ha := h.2 a (List.mem_cons_self _ _)
    have hp : p.Pid = a := by
      cases p
      simpa using ha
    simp [hp]
  | _ :: _ :: _, h => exact absurd h.1 (by simp)

theorem TraceOK.append {tr steps : List Step} (h : TraceOK tr) (hs : TraceOK steps) :
    TraceOK (tr ++ steps) := by
  obtain ⟨h1, h2, h3⟩ := h
  obtain ⟨s1, s2, s3⟩ := hs
  refine ⟨?_, ?_, ?_⟩
  · intro st hmem
    rcases List.mem_append.mp hmem with hm | hm
    · exact h1 st hm
    · exact s1 st hm
  · refine h2.append s2 ?_
    intro x hx y _ pid hpid
    rw [h3 x hx] at hpid
    cases hpid
  · cases steps with
    | nil => simpa using h3
    | cons a l =>
      rw [List.getLast?_append_of_ne_nil tr (List.cons_ne_nil a l)]
      exact s3

theorem inOrder_idle (ef : Effect) : Step.InOrder ⟨ef, none, []⟩ :=
  ⟨⟨by simp, by simp⟩, fun _ => ⟨rfl, rfl⟩⟩

theorem inOrder_stored (ef : Effect) (pid : Int) (hef : ef.isBuildOrStart = false) :
    Step.InOrder ⟨ef, some ⟨some ⟨pid⟩⟩, [pid]⟩ :=
  ⟨⟨by simp, by simp⟩, by simp [hef]⟩

theorem inOrder_of_oneChild {c : Option Cmd} {live : List Int} (h : OneChild c live)
    (ef : Effect) (hef : ef.isBuildOrStart = false) : Step.InOrder ⟨ef, c, live⟩ :=
  ⟨h, by simp [hef]⟩

theorem inv_newEngine (config : Config) (debugMode : Bool) : Inv (newEngine config debugMode) := by
  refine ⟨⟨by simp [newEngine], by simp [newEngine], by simp [newEngine]⟩,
    ⟨by simp [newEngine], by simp [newEngine]⟩, ?_⟩
  intro cmd h
  simp [newEngine] at h

theorem inv_processWait (p : Process) (s : State) (h : Inv s) : Inv (processWait p s) := by
  obtain ⟨htr, hone, hst⟩ := h
  refine ⟨?_, ?_, ?_⟩
  · have ht : (processWait p s).trace = s.trace ++ [⟨.wait p.Pid, s.e.currentCmd, s.live⟩] := by
      simp [processWait, emit]
    rw [ht]
    refine htr.append ⟨?_, by simp, by simp [Effect.startedPid]⟩
    simp [inOrder_of_oneChild hone, Effect.isBuildOrStart]
  · simpa [processWait, emit] using hone.erase p.Pid
  · simpa [Started, processWait, emit] using hst

theorem traceOK_killSteps (env : Env) (s : State) (p : Process)
    (hone : OneChild s.e.currentCmd s.live) (herase : s.live.erase p.Pid = []) :
    TraceOK (killSteps env s p) := by
  have h := fun ef hef => inOrder_of_oneChild hone ef hef
  cases h0 : env.kill s.calls <;> cases h1 : env.kill (s.calls + 1) <;>
    simp [TraceOK, killSteps, StoredNext, Effect.startedPid, Effect.isBuildOrStart, h0, h1,
      herase, h, inOrder_idle]

theorem inv_killCurrentProcess (env : Env) (s : State) (h : Inv s) :
    Inv (killCurrentProcess env s) ∧ (killCurrentProcess env s).live = [] ∧
      (killCurrentProcess env s).e.currentCmd = none := by
  obtain ⟨htr, hone, hst⟩ := h
  rcases hst.cases with hc | ⟨p, hc⟩
  · have hlive : s.live = [] := by
      rw [hc] at hone
      exact hone.live_nil
    rw [killCurrentProcess_idle env s (by simp [hc])]
    refine ⟨⟨?_, by simpa using hone, by simpa [Started] using hst⟩, hlive, hc⟩
    refine htr.append ⟨?_, ?_, ?_⟩
    · simp [hc, hlive, inOrder_idle]
    · simp [StoredNext, Effect.startedPid]
    · simp [Effect.startedPid]
  · have herase : s.live.erase p.Pid = [] := by
      rw [hc] at hone
      exact hone.erase_stored
    rw [killCurrentProcess_started env s p hc]
    refine ⟨⟨htr.append (traceOK_killSteps env s p hone herase), ?_, ?_⟩, herase, rfl⟩
    · simp only [herase]
      exact ⟨by simp, by simp⟩
    · intro cmd hcmd
      simp at hcmd

theorem inv_buildAndRun (env : Env) (s : State) (h : Inv s) (hlive : s.live = [])
    (hcur : s.e.currentCmd = none) : Inv (buildAndRun env s) := by
  obtain ⟨htr, -, -⟩ := h
  cases hb : env.build s.calls with
  | some err =>
    have ht : (buildAndRun env s).trace = s.trace ++
        [⟨.log "Building..." [], none, []⟩,
         ⟨.run ["go", "build", "-o", s.e.config.Build.Bin] (some err), none, []⟩,
         ⟨.log "Build failed: %v" [err], none, []⟩] := by
      simp [buildAndRun, runBuild, mainLog, emit, hb, hlive, hcur]
    refine ⟨?_, ?_, ?_⟩
    · rw [ht]
      exact htr.append (by simp [TraceOK, StoredNext, Effect.startedPid, inOrder_idle])
    · simp [buildAndRun, runBuild, mainLog, emit, hb, hlive, hcur, OneChild]
    · simp [buildAndRun, runBuild, mainLog, emit, hb, hcur, Started]
  | none =>
    cases hs : env.start (s.calls + 1) with
    | error err =>
      have ht : (buildAndRun env s).trace = s.trace ++
          [⟨.log "Building..." [], none, []⟩,
           ⟨.run ["go", "build", "-o", s.e.config.Build.Bin] none, none, []⟩,
           ⟨.log "Running..." [], none, []⟩,
           ⟨.lock, none, []⟩,
           ⟨.start s.e.config.Build.Bin (.error err), none, []⟩,
           ⟨.log "Failed to start process: %v" [err], none, []⟩,
           ⟨.unlock, none, []⟩] := by
        simp [buildAndRun, runBuild, cmdStart, mainLog, emit, hb, hs, hlive, hcur]
      refine ⟨?_, ?_, ?_⟩
      · rw [ht]
        exact htr.append (by simp [TraceOK, StoredNext, Effect.startedPid, inOrder_idle])
      · simp [buildAndRun, runBuild, cmdStart, mainLog, emit, hb, hs, hlive, hcur, OneChild]
      · simp [buildAndRun, runBuild, cmdStart, mainLog, emit, hb, hs, hcur, Started]
    | ok pid =>
      have ht : (buildAndRun env s).trace = s.trace ++
          [⟨.log "Building..." [], none, []⟩,
           ⟨.run ["go", "build", "-o", s.e.config.Build.Bin] none, none, []⟩,
           ⟨.log "Running..." [], none, []⟩,
           ⟨.lock, none, []⟩,
           ⟨.start s.e.config.Build.Bin (.ok pid), none, []⟩,
           ⟨.unlock, some ⟨some ⟨pid⟩⟩, [pid]⟩,
           ⟨.goWait pid, some ⟨some ⟨pid⟩⟩, [pid]⟩] := by
        simp [buildAndRun, runBuild, cmdStart, goWait, mainLog, emit, hb, hs, hlive, hcur]
      refine ⟨?_, ?_, ?_⟩
      · rw [ht]
        exact htr.append
          (by simp [TraceOK, StoredNext, Effect.startedPid, inOrder_idle, inOrder_stored,
            Effect.isBuildOrStart])
      · simp [buildAndRun, runBuild, cmdStart, goWait, mainLog, emit, hb, hs, hlive, OneChild]
      · simp [buildAndRun, runBuild, cmdStart, goWait, mainLog, emit, hb, hs, Started]

theorem inv_exec (env : Env) (c : Call) (s : State) (h : Inv s) : Inv (c.exec env s) := by
  cases c with
  | rebuild =>
    obtain ⟨hk, hlive, hcur⟩ := inv_killCurrentProcess env s h
    exact inv_buildAndRun env _ hk hlive hcur
  | killCurrentProcess => exact (inv_killCurrentProcess env s h).1
  | waiterReaps pid => exact inv_processWait ⟨pid⟩ s h

theorem inv_runCalls (env : Env) (calls : List Call) (s : State) (h : Inv s) :
    Inv (runCalls env calls s) := by
  induction calls generalizing s with
  | nil => exact h
  | cons c cs ih => exact ih _ (inv_exec env c s h)

theorem buildAndRun_effects (env : Env) (k : State) :
    ∃ steps rest, (buildAndRun env k).trace = k.trace ++ steps ∧
      effects steps =
        .log "Building..." [] ::
          .run ["go", "build", "-o", k.e.config.Build.Bin] (env.build k.calls) :: rest := by
  cases hb : env.build k.calls with
  | some err =>
    refine ⟨(buildAndRun env k).trace.drop k.trace.length,
      [.log "Build failed: %v" [err]], ?_, ?_⟩ <;>
      simp [buildAndRun, runBuild, mainLog, emit, effects, hb]
  | none =>
    cases hs : env.start (k.calls + 1) with
    | error err =>
      refine ⟨(buildAndRun env k).trace.drop k.trace.length,
        [.log "Running..." [], .lock, .start k.e.config.Build.Bin (.error err),
          .log "Failed to start process: %v" [err], .unlock], ?_, ?_⟩ <;>
        simp [buildAndRun, runBuild, cmdStart, mainLog, emit, effects, hb, hs]
    | ok pid =>
      refine ⟨(buildAndRun env k).trace.drop k.trace.length,
        [.log "Running..." [], .lock, .start k.e.config.Build.Bin (.ok pid), .unlock,
          .goWait pid], ?_, ?_⟩ <;>
        simp [buildAndRun, runBuild, cmdStart, goWait, mainLog, emit, effects, hb, hs]

theorem rebuild_effects_started (env : Env) (s : State) (p : Process)
    (hc : s.e.currentCmd = some ⟨some p⟩) :
    ∃ rest, newEffects s (rebuild env s) =
      [.lock, .log "Killing process %d" [p.Pid], .kill (-p.Pid) .SIGINT (env.kill s.calls)]
      ++ (if env.kill s.calls = none then [.sleep (100 * 1000000)] else [])
      ++ [.kill (-p.Pid) .SIGKILL (env.kill (s.calls + 1))]
      ++ (if env.kill (s.calls + 1) ≠ none
          then [.kill p.Pid .SIGKILL (env.kill (s.calls + 2))] else [])
      ++ [.wait p.Pid, .unlock]
      ++ [.log "Building..." [],
          .run ["go", "build", "-o", s.e.config.Build.Bin]
            (env.build (s.calls + (if env.kill (s.calls + 1) ≠ none then 3 else 2)))]
      ++ rest := by
  obtain ⟨steps, rest, htrace, heff⟩ := buildAndRun_effects env (killCurrentProcess env s)
  rw [killCurrentProcess_started env s p hc] at htrace heff
  refine ⟨rest, ?_⟩
  rw [rebuild_eq, newEffects_of_trace s _ (killSteps env s p ++ steps)
    (by rw [killCurrentProcess_started env s p hc, htrace, List.append_assoc])]
  have hk := effects_killSteps env s p
  simp only [effects, List.map_append] at hk heff ⊢
  rw [hk, heff]
  simp [killEffects, hundredMilliseconds]

theorem rebuild_effects_idle (env : Env) (s : State) (hc : s.e.currentCmd = none) :
    ∃ rest, newEffects s (rebuild env s) =
      [.lock, .unlock, .log "Building..." [],
        .run ["go", "build", "-o", s.e.config.Build.Bin] (env.build s.calls)] ++ rest := by
  obtain ⟨steps, rest, htrace, heff⟩ := buildAndRun_effects env (killCurrentProcess env s)
  have hidle := killCurrentProcess_idle env s (by simp [hc])
  rw [hidle] at htrace heff
  refine ⟨rest, ?_⟩
  rw [rebuild_eq, newEffects_of_trace s _
    ([⟨.lock, s.e.currentCmd, s.live⟩, ⟨.unlock, s.e.currentCmd, s.live⟩] ++ steps)
    (by rw [hidle, htrace, List.append_assoc])]
  simp only [effects, List.map_append] at heff ⊢
  rw [heff]
  simp

/-- The trace of two rebuilds in a row on a new engine, every call succeeding:
the child 101 of the first rebuild is interrupted, killed and reaped before the
second build runs, and the child 105 is started after it. -/
theorem rebuild_twice_effects :
    effects (runCalls allSucceed [.rebuild, .rebuild] (newEngine exampleConfig false)).trace =
      [.lock, .unlock, .log "Building..." [], .run ["go", "build", "-o", "./tmp/main"] none,
       .log "Running..." [], .lock, .start "./tmp/main" (.ok 101), .unlock, .goWait 101,
       .lock, .log "Killing process %d" [101], .kill (-101) .SIGINT none,
       .sleep (100 * 1000000), .kill (-101) .SIGKILL none, .wait 101, .unlock,
       .log "Building..." [], .run ["go", "build", "-o", "./tmp/main"] none,
       .log "Running..." [], .lock, .start "./tmp/main" (.ok 105), .unlock, .goWait 105] ∧
    (runCalls allSucceed [.rebuild, .rebuild] (newEngine exampleConfig false)).live = [105] ∧
    (runCalls allSucceed [.rebuild, .rebuild] (newEngine exampleConfig false)).e.currentCmd =
      some ⟨some ⟨105⟩⟩ := by
  decide

/-- C1: in every sequential execution from a new engine, made of any finite
sequence of `rebuild` calls, `killCurrentProcess` calls and reapings by the
waiting goroutine, under every outcome of the signals, builds and starts: each
effect of the trace (log line, lock, unlock, signal, sleep, wait, build, start)
is issued in a state with at most one child started and not yet reaped, that
child being the one stored in `currentCmd`, and so is the state reached when
the calls have returned; each run of the build command and each start of a
child is issued with no live child and `currentCmd` equal to nil; and each
start that succeeds is followed by a step issued with the new child stored in
`currentCmd` as the only live child, the handle being stored by the assignment
that follows `cmd.Start()` under the same lock, before the next effect.
Within each `rebuild` from such a state, the previous child is signalled and
reaped before the build runs: when a child `p` is stored, the effects of
`rebuild` begin with SIGINT to `-pid`, a sleep of 100 ms if that was delivered,
SIGKILL to `-pid`, SIGKILL to `pid` if that failed, and the wait on `pid`, all
before the build command, which itself comes before any start; when no child
is stored, they begin with the build.  A reachable state is in one of these two
cases. -/
theorem at_most_one_live_child (env : Env) (config : Config) (debugMode : Bool)
    (calls : List Call) :
    (∀ st ∈ (runCalls env calls (newEngine config debugMode)).trace,
      st.live.length ≤ 1 ∧ ∀ pid ∈ st.live, st.currentCmd = some ⟨some ⟨pid⟩⟩) ∧
    ((runCalls env calls (newEngine config debugMode)).live.length ≤ 1 ∧
      ∀ pid ∈ (runCalls env calls (newEngine config debugMode)).live,
        (runCalls env calls (newEngine config debugMode)).e.currentCmd = some ⟨some ⟨pid⟩⟩) ∧
    (∀ st ∈ (runCalls env calls (newEngine config debugMode)).trace,
      st.effect.isBuildOrStart = true → st.live = [] ∧ st.currentCmd = none) ∧
    List.Chain' StoredNext (runCalls env calls (newEngine config debugMode)).trace ∧
    (∀ st ∈ (runCalls env calls (newEngine config debugMode)).trace.getLast?,
      st.effect.startedPid = none) ∧
    (∀ p : Process,
      (runCalls env calls (newEngine config debugMode)).e.currentCmd = some ⟨some p⟩ →
      ∃ rest,
        newEffects (runCalls env calls (newEngine config debugMode))
          (rebuild env (runCalls env calls (newEngine config debugMode))) =
        [.lock, .log "Killing process %d" [p.Pid],
          .kill (-p.Pid) .SIGINT
            (env.kill (runCalls env calls (newEngine config debugMode)).calls)]
        ++ (if env.kill (runCalls env calls (newEngine config debugMode)).calls = none
            then [.sleep (100 * 1000000)] else [])
        ++ [.kill (-p.Pid) .SIGKILL
            (env.kill ((runCalls env calls (newEngine config debugMode)).calls + 1))]
        ++ (if env.kill ((runCalls env calls (newEngine config debugMode)).calls + 1) ≠ none
            then [.kill p.Pid .SIGKILL
              (env.kill ((runCalls env calls (newEngine config debugMode)).calls + 2))]
            else [])
        ++ [.wait p.Pid, .unlock]
        ++ [.log "Building..." [],
            .run ["go", "build", "-o",
                (runCalls env calls (newEngine config debugMode)).e.config.Build.Bin]
              (env.build ((runCalls env calls (newEngine config debugMode)).calls +
                (if env.kill ((runCalls env calls (newEngine config debugMode)).calls + 1) ≠ none
                  then 3 else 2)))]
        ++ rest) ∧
    ((runCalls env calls (newEngine config debugMode)).e.currentCmd = none →
      ∃ rest,
        newEffects (runCalls env calls (newEngine config debugMode))
          (rebuild env (runCalls env calls (newEngine config debugMode))) =
        [.lock, .unlock, .log "Building..." [],
          .run ["go", "build", "-o",
              (runCalls env calls (newEngine config debugMode)).e.config.Build.Bin]
            (env.build (runCalls env calls (newEngine config debugMode)).calls)]
        ++ rest) ∧
    ((runCalls env calls (newEngine config debugMode)).e.currentCmd = none ∨
      ∃ p : Process,
        (runCalls env calls (newEngine config debugMode)).e.currentCmd = some ⟨some p⟩) := by
  obtain ⟨⟨htr, hchain, hlast⟩, hone, hst⟩ :=
    inv_runCalls env calls _ (inv_newEngine config debugMode)
  exact ⟨fun st hst => (htr st hst).1, hone, fun st hst => (htr st hst).2, hchain, hlast,
    fun p hp => rebuild_effects_started env _ p hp,
    fun hnone => rebuild_effects_idle env _ hnone, hst.cases⟩

/-- Witness for C1 : after one rebuild on a new engine the child 101 is stored;
the next rebuild, with every signal succeeding, interrupts it, kills it and
waits for it before it runs the build. -/
theorem at_most_one_live_child_witness :
    ∃ rest,
      newEffects (runCalls allSucceed [.rebuild] (newEngine exampleConfig false))
        (rebuild allSucceed (runCalls allSucceed [.rebuild] (newEngine exampleConfig false))) =
      [.lock, .log "Killing process %d" [101], .kill (-101) .SIGINT none]
      ++ [.sleep (100 * 1000000)]
      ++ [.kill (-101) .SIGKILL none]
      ++ []
      ++ [.wait 101, .unlock]
      ++ [.log "Building..." [], .run ["go", "build", "-o", "./tmp/main"] none]
      ++ rest :=
  (at_most_one_live_child allSucceed exampleConfig false [.rebuild]).2.2.2.2.2.1 ⟨101⟩ rfl

end Air
